import Mathlib

/-!
Shallow embedding of the core of the `ppot-verifier` repository: the
content-range codec, the resumable download logic, the download
orchestrator, the streaming hasher, the hash consistency check, and the
round verification chain. Machine bytes are modelled as `Nat`, strings as
`List Char`, fallible operations as `Option` or `Except`, and panics as
`Option.none`.
-/

/-- Splits a character list at the first occurrence of `c`, returning the
parts before and after it, mirroring Rust's `str::split_once`. -/
def splitOnce (c : Char) : List Char → Option (List Char × List Char)
  | [] => none
  | x :: xs =>
    if x = c then some ([], xs)
    else
      match splitOnce c xs with
      | none => none
      | some (l, r) => some (x :: l, r)

/-- Accumulator loop of `u64::from_str`: consumes decimal digits, failing on
a non-digit character or on overflow past `2 ^ 64`. -/
def parseDigitsAux : List Char → Nat → Option Nat
  | [], acc => some acc
  | c :: cs, acc =>
    if c.isDigit then
      let v := acc * 10 + (c.toNat - '0'.toNat)
      if v < 2 ^ 64 then parseDigitsAux cs v else none
    else none

/-- Model of Rust's `u64::from_str` as used by `str::parse::<u64>`: an
optional leading `+` followed by at least one decimal digit, value below
`2 ^ 64`; every failure kind collapses to `none`. -/
def u64_from_str (s : List Char) : Option Nat :=
  match s with
  | [] => none
  | c :: rest =>
    if c = '+' then
      if rest.isEmpty then none else parseDigitsAux rest 0
    else parseDigitsAux (c :: rest) 0

/-- Content range descriptor from `downloader.rs`: `Full` carries the
`start`, `stop` (called `end` in the source) and `size` fields of a
`bytes <start>-<end>/<size>` header, `Size` the size of a `bytes */<size>`
header. -/
inductive ContentRange where
  | Full (start stop size : Nat)
  | Size (size : Nat)
deriving DecidableEq, Repr

/-- Parse error enumeration of `ContentRangeParseError` in `downloader.rs`;
the `ParseIntError` payloads of the invalid-field constructors are dropped. -/
inductive ContentRangeParseError where
  | MissingSpace
  | MissingBytesTag
  | MissingSlash
  | MissingStar
  | InvalidStart
  | InvalidEnd
  | InvalidSize
deriving DecidableEq, Repr

/-- Model of `ContentRange::from_str`: split on the first space, require the
`bytes` tag, then either a `<start>-<end>/<size>` or a `*/<size>` range
expression, with a distinct error for each malformed token. -/
def ContentRange.from_str (range_string : List Char) :
    Except ContentRangeParseError ContentRange :=
  match splitOnce ' ' range_string with
  | none => .error .MissingSpace
  | some (bytes_tag, range) =>
    if bytes_tag = "bytes".toList then
      match splitOnce '-' range with
      | some (start, end_and_size) =>
        match splitOnce '/' end_and_size with
        | none => .error .MissingSlash
        | some (stop, size) =>
          match u64_from_str start with
          | none => .error .InvalidStart
          | some st =>
            match u64_from_str stop with
            | none => .error .InvalidEnd
            | some en =>
              match u64_from_str size with
              | none => .error .InvalidSize
              | some sz => .ok (.Full st en sz)
      | none =>
        match splitOnce '/' range with
        | none => .error .MissingSlash
        | some (star, size) =>
          if star = ['*'] then
            match u64_from_str size with
            | none => .error .InvalidSize
            | some sz => .ok (.Size sz)
          else .error .MissingStar
    else .error .MissingBytesTag

/-- Model of `ContentRange::from_response`: the response's `CONTENT_RANGE`
header (absent modelled as `none`) parsed with `from_str`, any parse error
collapsed to `none` as by `.parse().ok()`. -/
def ContentRange.from_response (header : Option (List Char)) : Option ContentRange :=
  match header with
  | none => none
  | some s => (ContentRange.from_str s).toOption


/-- Failure cases of `send_download_request` in `downloader.rs`: the two
`anyhow!` messages, `Size mismatch.` and `Failed to parse content range`
(the latter covering an absent or unparseable header). -/
inductive DownloadError where
  | sizeMismatch
  | missingOrInvalidRange
deriving DecidableEq, Repr

/-- Model of `send_download_request`: dispatch on the parsed content range
of the response to a range request starting at `start`. Returns
`ok (some size)` when streaming should proceed, `ok none` when the local
file is already complete, and an error otherwise. -/
def send_download_request (header : Option (List Char)) (start : Nat) :
    Except DownloadError (Option Nat) :=
  match ContentRange.from_response header with
  | some (.Full _ _ size) => .ok (some size)
  | some (.Size size) => if size = start then .ok none else .error .sizeMismatch
  | none => .error .missingOrInvalidRange

/-- Model of `open_file`: opening the local artifact in append-create mode
returns its current length together with the file contents. -/
def open_file (file : List Nat) : Nat × List Nat := (file.length, file)

/-- Abstraction of the remote server in `download_file`: for a range request
starting at a given offset it yields the content-range header of the
response and the body chunks in arrival order. -/
structure Server where
  header : Nat → Option (List Char)
  body : Nat → List (List Nat)

/-- Observable behaviour of one `download_file` call: the start offset sent
in the `RANGE` request header, the chunks written to the artifact, and the
final artifact contents. -/
structure FetchTrace where
  requestStart : Nat
  written : List (List Nat)
  file : List Nat
deriving DecidableEq, Repr

/-- Model of `download_file`: read the local length, send the range request
at that offset, and either finish immediately (`ok none` case), stream all
body chunks appending each in arrival order, or propagate the error. -/
def download_file (server : Server) (file0 : List Nat) : Except DownloadError FetchTrace :=
  let p := open_file file0
  let amount_downloaded := p.1
  let file := p.2
  match send_download_request (server.header amount_downloaded) amount_downloaded with
  | .error e => .error e
  | .ok none => .ok ⟨amount_downloaded, [], file⟩
  | .ok (some _total_size) =>
    .ok ⟨amount_downloaded, server.body amount_downloaded,
      (server.body amount_downloaded).foldl (fun f chunk => f ++ chunk) file⟩

/-- Model of the spawn loop in the downloader's `main`: each catalog entry
carries the result of its `file_exists` probe and the eventual result of its
fetch task. A probe transport error aborts the loop with `?`; a `false`
probe logs and skips the entry; a `true` probe launches the task, whose
result is collected. -/
def spawn_tasks {E : Type} :
    List (Except E Bool × Except E Unit) → Except E (List (Except E Unit))
  | [] => .ok []
  | (probe, fetch) :: rest =>
    match probe with
    | .error e => .error e
    | .ok true =>
      match spawn_tasks rest with
      | .error e => .error e
      | .ok l => .ok (fetch :: l)
    | .ok false => spawn_tasks rest

/-- Model of `for result in try_join_all(handles).await? { result?; }`: all
join handles have completed, and the loop returns the first task error, or
unit when every task succeeded. -/
def firstError {E : Type} : List (Except E Unit) → Except E Unit
  | [] => .ok ()
  | .ok _ :: rest => firstError rest
  | .error e :: _ => .error e

/-- Model of the downloader's `main`: spawn the tasks over the catalog, wait
for all of them, then sequentially `?` each result. -/
def downloader_main {E : Type} (entries : List (Except E Bool × Except E Unit)) :
    Except E Unit :=
  match spawn_tasks entries with
  | .error e => .error e
  | .ok results => firstError results

/-- The failed tasks among a list of completed task results, in order. -/
def failed_errors {E : Type} (l : List (Except E Unit)) : List E :=
  l.filterMap (fun r => match r with | .error e => some e | .ok _ => none)

/-- Interface of the external Blake2b-512 hash accumulator used by
`calculate_hash` in `lib.rs`: an internal state, a default state, an
incremental update, and finalization to a digest byte list. -/
structure StreamingHasher (S : Type) where
  dflt : S
  update : S → List Nat → S
  finalize : S → List Nat

/-- Properties of the Blake2b accumulator that `calculate_hash` relies on:
the incremental update is concatenative, updating with no bytes is the
identity, and the finalized digest has 64 bytes (512 bits). -/
structure StreamingHasher.Lawful {S : Type} (H : StreamingHasher S) : Prop where
  update_append : ∀ s a b, H.update s (a ++ b) = H.update (H.update s a) b
  update_nil : ∀ s, H.update s [] = s
  finalize_length : ∀ s, (H.finalize s).length = 64

/-- Fuel-indexed helper for `chunks`; the fuel is the input length, enough
whenever the chunk size is positive. -/
def chunksAux (chunk_size : Nat) : Nat → List Nat → List (List Nat)
  | 0, _ => []
  | fuel + 1, l =>
    if l.isEmpty then []
    else l.take chunk_size :: chunksAux chunk_size fuel (l.drop chunk_size)

/-- Model of Rust's `slice::chunks`: the input split into consecutive chunks
of `chunk_size` elements, the last chunk possibly shorter. -/
def chunks (chunk_size : Nat) (l : List Nat) : List (List Nat) :=
  chunksAux chunk_size l.length l

/-- Model of `into_array_unchecked` from `lib.rs`: the `TryInto` conversion
of a byte list into an array of length `N` succeeds exactly on length `N`;
the `unreachable!` panic branch is modelled as `none`. -/
def into_array_unchecked (N : Nat) (value : List Nat) : Option (List Nat) :=
  if value.length = N then some value else none

/-- Model of `calculate_hash` from `lib.rs`: fold the incremental hasher
over the input chunks and convert the finalized digest into a 64-byte
array with `into_array_unchecked`. -/
def calculate_hash {S : Type} (H : StreamingHasher S) (chunk_size : Nat)
    (input_map : List Nat) : Option (List Nat) :=
  into_array_unchecked 64 (H.finalize ((chunks chunk_size input_map).foldl H.update H.dflt))

/-- Outcome recorded for one round by the verification loop in
`verify_ppot.rs`: the `Ok` println or the `Err` println with its error. -/
inductive RoundOutcome (E : Type) where
  | verified
  | failed (e : E)
deriving Repr

/-- Model of the round loop of `verify_ppot.rs`: each round carries the
parsed accumulator of the next challenge file, the 64-byte challenge hash
embedded at the start of the response file, and the parsed proof. On
success the verified accumulator is threaded forward; on failure the round
is recorded as failed and the raw claimed next state is used instead, the
scan continuing either way. -/
def verify_ppot_chain {S P E : Type} (verify : S → S → List Nat → P → Except E S)
    (prev : S) : List (S × List Nat × P) → S × List (RoundOutcome E)
  | [] => (prev, [])
  | (next, challenge_hash, proof) :: rest =>
    match verify prev next challenge_hash proof with
    | .ok accumulator =>
      ((verify_ppot_chain verify accumulator rest).1,
        .verified :: (verify_ppot_chain verify accumulator rest).2)
    | .error e =>
      ((verify_ppot_chain verify next rest).1,
        .failed e :: (verify_ppot_chain verify next rest).2)

/-- Per-round report of the verification chain. -/
def chain_report {S P E : Type} (verify : S → S → List Nat → P → Except E S)
    (prev : S) (rounds : List (S × List Nat × P)) : List (RoundOutcome E) :=
  (verify_ppot_chain verify prev rounds).2

/-- Accumulator value held by the chain when it reaches round `j`. -/
def chain_state_before {S P E : Type} (verify : S → S → List Nat → P → Except E S)
    (prev : S) (rounds : List (S × List Nat × P)) (j : Nat) : S :=
  (verify_ppot_chain verify prev (rounds.take j)).1

/-- Model of `file.read(&mut hash[..])` into a zeroed 64-byte buffer in
`hash_check.rs`: the first 64 bytes of the file, zero-padded when the file
is shorter. -/
def read64 (contents : List Nat) : List Nat :=
  contents.take 64 ++ List.replicate (64 - contents.length) 0

/-- Model of the first loop of `hash_check.rs`: for every zipped pair of a
challenge `_hash` file and the following response file, compare the 64-byte
recorded hash with the 64 bytes embedded at the start of the response,
reporting equality per round and never halting. -/
def hash_check_report (challenge_hash_files response_files : List (List Nat)) :
    List Bool :=
  (challenge_hash_files.zip response_files).map
    (fun p => decide (read64 p.1 = read64 p.2))

/-- Example verification capability used to exercise the chain theorems: it
fails with error 7 exactly when the embedded challenge hash is `[1]`. -/
def exVerify : Nat → Nat → List Nat → Nat → Except Nat Nat :=
  fun prev next h _ => if h = [1] then .error 7 else .ok (prev + next)

/-- Example round list used to exercise the chain theorems. -/
def exRounds : List (Nat × List Nat × Nat) := [(10, [1], 0), (20, [], 0)]

/-- Example hasher used to exercise the streaming-hash theorems: the state
accumulates the bytes seen so far and finalization summarizes them into a
64-byte digest. -/
def exHasher : StreamingHasher (List Nat) where
  dflt := []
  update := fun s l => s ++ l
  finalize := fun s => List.replicate 64 s.length


theorem splitOnce_eq_some :
    ∀ {s : List Char} {c : Char} {l r : List Char},
      splitOnce c s = some (l, r) → s = l ++ c :: r ∧ c ∉ l := by
  intro s
  induction s with
  | nil => intro c l r h; simp [splitOnce] at h
  | cons x xs ih =>
    intro c l r h
    rw [splitOnce] at h
    by_cases hx : x = c
    · rw [if_pos hx] at h
      injection h with h
      obtain ⟨hl, hr⟩ := Prod.mk.injEq .. ▸ h
      subst hx
      simp [← hl, ← hr]
    · rw [if_neg hx] at h
      cases hsp : splitOnce c xs with
      | none => rw [hsp] at h; exact absurd h (by simp)
      | some p =>
        obtain ⟨l', r'⟩ := p
        rw [hsp] at h
        injection h with h
        obtain ⟨hl, hr⟩ := Prod.mk.injEq .. ▸ h
        obtain ⟨hs, hm⟩ := ih hsp
        subst hs
        constructor
        · rw [← hl, ← hr]; simp
        · rw [← hl]
          intro hmem
          rcases List.mem_cons.mp hmem with h1 | h1
          · exact hx h1.symm
          · exact hm h1

theorem splitOnce_eq_none :
    ∀ {s : List Char} {c : Char}, splitOnce c s = none → c ∉ s := by
  intro s
  induction s with
  | nil => intro c _ h; simp at h
  | cons x xs ih =>
    intro c h
    rw [splitOnce] at h
    by_cases hx : x = c
    · rw [if_pos hx] at h; exact absurd h (by simp)
    · rw [if_neg hx] at h
      cases hsp : splitOnce c xs with
      | none =>
        intro hmem
        rcases List.mem_cons.mp hmem with h1 | h1
        · exact hx h1.symm
        · exact ih hsp h1
      | some p => obtain ⟨l', r'⟩ := p; rw [hsp] at h; exact absurd h (by simp)

theorem splitOnce_append {c : Char} :
    ∀ {l : List Char} (r : List Char), c ∉ l → splitOnce c (l ++ c :: r) = some (l, r) := by
  intro l
  induction l with
  | nil => intro r _; simp [splitOnce]
  | cons x xs ih =>
    intro r h
    have hx : ¬ x = c := fun he => h (by simp [he])
    have hxs : c ∉ xs := fun hm => h (List.mem_cons_of_mem _ hm)
    rw [List.cons_append, splitOnce, if_neg hx, ih r hxs]

theorem parseDigitsAux_lt :
    ∀ {s : List Char} {acc n : Nat}, acc < 2 ^ 64 → parseDigitsAux s acc = some n →
      n < 2 ^ 64 := by
  intro s
  induction s with
  | nil => intro acc n hacc h; rw [parseDigitsAux] at h; injection h with h; omega
  | cons x xs ih =>
    intro acc n hacc h
    rw [parseDigitsAux] at h
    by_cases hd : x.isDigit
    · rw [if_pos hd] at h
      by_cases hv : acc * 10 + (x.toNat - '0'.toNat) < 2 ^ 64
      · rw [if_pos hv] at h; exact ih hv h
      · rw [if_neg hv] at h; exact absurd h (by simp)
    · rw [if_neg hd] at h; exact absurd h (by simp)

theorem parseDigitsAux_chars :
    ∀ {s : List Char} {acc n : Nat}, parseDigitsAux s acc = some n →
      ∀ x ∈ s, x.isDigit := by
  intro s
  induction s with
  | nil => intro acc n _ x hx; simp at hx
  | cons y ys ih =>
    intro acc n h x hx
    rw [parseDigitsAux] at h
    by_cases hd : y.isDigit
    · rw [if_pos hd] at h
      by_cases hv : acc * 10 + (y.toNat - '0'.toNat) < 2 ^ 64
      · rw [if_pos hv] at h
        rcases List.mem_cons.mp hx with h1 | h1
        · exact h1 ▸ hd
        · exact ih h x h1
      · rw [if_neg hv] at h; exact absurd h (by simp)
    · rw [if_neg hd] at h; exact absurd h (by simp)

theorem u64_from_str_lt {s : List Char} {n : Nat} (h : u64_from_str s = some n) :
    n < 2 ^ 64 := by
  have hlt : (0 : Nat) < 2 ^ 64 := by norm_num
  cases s with
  | nil => simp [u64_from_str] at h
  | cons c rest =>
    rw [u64_from_str] at h
    by_cases hc : c = '+'
    · rw [if_pos hc] at h
      by_cases he : rest.isEmpty
      · rw [if_pos he] at h; exact absurd h (by simp)
      · rw [if_neg he] at h; exact parseDigitsAux_lt hlt h
    · rw [if_neg hc] at h; exact parseDigitsAux_lt hlt h

theorem u64_from_str_chars {s : List Char} {n : Nat} (h : u64_from_str s = some n) :
    ∀ x ∈ s, x = '+' ∨ x.isDigit := by
  cases s with
  | nil => intro x hx; simp at hx
  | cons c rest =>
    rw [u64_from_str] at h
    intro x hx
    by_cases hc : c = '+'
    · rw [if_pos hc] at h
      by_cases he : rest.isEmpty
      · rw [if_pos he] at h; exact absurd h (by simp)
      · rw [if_neg he] at h
        rcases List.mem_cons.mp hx with h1 | h1
        · exact Or.inl (h1.trans hc)
        · exact Or.inr (parseDigitsAux_chars h x h1)
    · rw [if_neg hc] at h
      exact Or.inr (parseDigitsAux_chars h x hx)

theorem u64_from_str_not_mem {s : List Char} {n : Nat} (h : u64_from_str s = some n)
    (c : Char) (h1 : c ≠ '+') (h2 : ¬ c.isDigit) : c ∉ s := by
  intro hmem
  rcases u64_from_str_chars h c hmem with h3 | h3
  · exact h1 h3
  · exact h2 h3

theorem splitOnce_of_not_mem {c : Char} :
    ∀ {s : List Char}, c ∉ s → splitOnce c s = none := by
  intro s
  induction s with
  | nil => intro _; rfl
  | cons x xs ih =>
    intro h
    have hx : ¬ x = c := fun he => h (by simp [he])
    have hxs : c ∉ xs := fun hm => h (List.mem_cons_of_mem _ hm)
    rw [splitOnce, if_neg hx, ih hxs]

theorem from_str_full_sound {a b c : List Char} {st en sz : Nat}
    (ha : u64_from_str a = some st) (hb : u64_from_str b = some en)
    (hc : u64_from_str c = some sz) :
    ContentRange.from_str ("bytes ".toList ++ a ++ '-' :: b ++ '/' :: c) =
      .ok (.Full st en sz) := by
  have h1 : splitOnce ' ' ("bytes ".toList ++ a ++ '-' :: b ++ '/' :: c)
      = some ("bytes".toList, a ++ '-' :: (b ++ '/' :: c)) := by
    have he : ("bytes ".toList ++ a ++ '-' :: b ++ '/' :: c)
        = "bytes".toList ++ ' ' :: (a ++ '-' :: (b ++ '/' :: c)) := by simp
    rw [he]
    exact splitOnce_append _ (by decide)
  have h2 : splitOnce '-' (a ++ '-' :: (b ++ '/' :: c)) = some (a, b ++ '/' :: c) :=
    splitOnce_append _ (u64_from_str_not_mem ha '-' (by decide) (by decide))
  have h3 : splitOnce '/' (b ++ '/' :: c) = some (b, c) :=
    splitOnce_append _ (u64_from_str_not_mem hb '/' (by decide) (by decide))
  unfold ContentRange.from_str
  rw [h1]
  simp [h2, h3, ha, hb, hc]

theorem from_str_size_sound {c : List Char} {sz : Nat}
    (hc : u64_from_str c = some sz) :
    ContentRange.from_str ("bytes */".toList ++ c) = .ok (.Size sz) := by
  have h1 : splitOnce ' ' ("bytes */".toList ++ c)
      = some ("bytes".toList, '*' :: '/' :: c) := by
    have he : ("bytes */".toList ++ c) = "bytes".toList ++ ' ' :: ('*' :: '/' :: c) := by simp
    rw [he]
    exact splitOnce_append _ (by decide)
  have h2 : splitOnce '-' ('*' :: '/' :: c) = none := by
    apply splitOnce_of_not_mem
    intro hmem
    rcases List.mem_cons.mp hmem with h | h
    · exact absurd h (by decide)
    rcases List.mem_cons.mp h with h | h
    · exact absurd h (by decide)
    · exact u64_from_str_not_mem hc '-' (by decide) (by decide) h
  have h3 : splitOnce '/' ('*' :: '/' :: c) = some (['*'], c) :=
    splitOnce_append (l := ['*']) _ (by decide)
  unfold ContentRange.from_str
  rw [h1]
  simp [h2, h3, hc]

theorem from_str_ok_full {s : List Char} {st en sz : Nat}
    (h : ContentRange.from_str s = .ok (.Full st en sz)) :
    ∃ a b c, s = "bytes ".toList ++ a ++ '-' :: b ++ '/' :: c
      ∧ u64_from_str a = some st ∧ u64_from_str b = some en
      ∧ u64_from_str c = some sz := by
  unfold ContentRange.from_str at h
  cases h1 : splitOnce ' ' s with
  | none => rw [h1] at h; exact absurd h (by simp)
  | some p =>
    obtain ⟨tag, range⟩ := p
    rw [h1] at h
    dsimp only [] at h
    by_cases htag : tag = "bytes".toList
    · rw [if_pos htag] at h
      cases h2 : splitOnce '-' range with
      | some q =>
        obtain ⟨a, es⟩ := q
        rw [h2] at h
        dsimp only [] at h
        cases h3 : splitOnce '/' es with
        | none => rw [h3] at h; exact absurd h (by simp)
        | some r =>
          obtain ⟨b, c⟩ := r
          rw [h3] at h
          dsimp only [] at h
          cases ha : u64_from_str a with
          | none => rw [ha] at h; exact absurd h (by simp)
          | some st' =>
            rw [ha] at h
            dsimp only [] at h
            cases hb : u64_from_str b with
            | none => rw [hb] at h; exact absurd h (by simp)
            | some en' =>
              rw [hb] at h
              dsimp only [] at h
              cases hcq : u64_from_str c with
              | none => rw [hcq] at h; exact absurd h (by simp)
              | some sz' =>
                rw [hcq] at h
                dsimp only [] at h
                simp only [Except.ok.injEq, ContentRange.Full.injEq] at h
                obtain ⟨hst, hen, hsz⟩ := h
                refine ⟨a, b, c, ?_, ?_, ?_, ?_⟩
                · obtain ⟨hs, _⟩ := splitOnce_eq_some h1
                  obtain ⟨hr, _⟩ := splitOnce_eq_some h2
                  obtain ⟨hes, _⟩ := splitOnce_eq_some h3
                  subst htag
                  rw [hs, hr, hes]
                  simp
                · rw [ha, hst]
                · rw [hb, hen]
                · rw [hcq, hsz]
      | none =>
        rw [h2] at h
        cases h3 : splitOnce '/' range with
        | none => rw [h3] at h; exact absurd h (by simp)
        | some r =>
          obtain ⟨star, size⟩ := r
          rw [h3] at h
          dsimp only [] at h
          by_cases hstar : star = ['*']
          · rw [if_pos hstar] at h
            cases hsz : u64_from_str size with
            | none => rw [hsz] at h; exact absurd h (by simp)
            | some v => rw [hsz] at h; exact absurd h (by simp)
          · rw [if_neg hstar] at h; exact absurd h (by simp)
    · rw [if_neg htag] at h; exact absurd h (by simp)

theorem from_str_ok_size {s : List Char} {sz : Nat}
    (h : ContentRange.from_str s = .ok (.Size sz)) :
    ∃ c, s = "bytes */".toList ++ c ∧ u64_from_str c = some sz := by
  unfold ContentRange.from_str at h
  cases h1 : splitOnce ' ' s with
  | none => rw [h1] at h; exact absurd h (by simp)
  | some p =>
    obtain ⟨tag, range⟩ := p
    rw [h1] at h
    dsimp only [] at h
    by_cases htag : tag = "bytes".toList
    · rw [if_pos htag] at h
      cases h2 : splitOnce '-' range with
      | some q =>
        obtain ⟨a, es⟩ := q
        rw [h2] at h
        dsimp only [] at h
        cases h3 : splitOnce '/' es with
        | none => rw [h3] at h; exact absurd h (by simp)
        | some r =>
          obtain ⟨b, c⟩ := r
          rw [h3] at h
          dsimp only [] at h
          cases ha : u64_from_str a with
          | none => rw [ha] at h; exact absurd h (by simp)
          | some st' =>
            rw [ha] at h
            dsimp only [] at h
            cases hb : u64_from_str b with
            | none => rw [hb] at h; exact absurd h (by simp)
            | some en' =>
              rw [hb] at h
              dsimp only [] at h
              cases hcq : u64_from_str c with
              | none => rw [hcq] at h; exact absurd h (by simp)
              | some sz' => rw [hcq] at h; exact absurd h (by simp)
      | none =>
        rw [h2] at h
        cases h3 : splitOnce '/' range with
        | none => rw [h3] at h; exact absurd h (by simp)
        | some r =>
          obtain ⟨star, size⟩ := r
          rw [h3] at h
          dsimp only [] at h
          by_cases hstar : star = ['*']
          · rw [if_pos hstar] at h
            cases hsz : u64_from_str size with
            | none => rw [hsz] at h; exact absurd h (by simp)
            | some v =>
              rw [hsz] at h
              dsimp only [] at h
              simp only [Except.ok.injEq, ContentRange.Size.injEq] at h
              refine ⟨size, ?_, by rw [hsz, h]⟩
              obtain ⟨hs, _⟩ := splitOnce_eq_some h1
              obtain ⟨hr, _⟩ := splitOnce_eq_some h3
              subst htag
              subst hstar
              rw [hs, hr]
              simp
          · rw [if_neg hstar] at h; exact absurd h (by simp)
    · rw [if_neg htag] at h; exact absurd h (by simp)

theorem foldl_append_eq {α : Type} :
    ∀ (l : List (List α)) (a : List α),
      l.foldl (fun f chunk => f ++ chunk) a = a ++ l.flatten := by
  intro l
  induction l with
  | nil => intro a; simp
  | cons x xs ih => intro a; simp [ih]

theorem foldl_chunksAux {S : Type} (H : StreamingHasher S) (hL : H.Lawful)
    (n : Nat) (hn : 0 < n) :
    ∀ (fuel : Nat) (l : List Nat) (s : S), l.length ≤ fuel →
      (chunksAux n fuel l).foldl H.update s = H.update s l := by
  intro fuel
  induction fuel with
  | zero =>
    intro l s hlen
    have hl : l = [] := List.eq_nil_of_length_eq_zero (Nat.le_zero.mp hlen)
    subst hl
    simp [chunksAux, hL.update_nil]
  | succ f ih =>
    intro l s hlen
    rw [chunksAux]
    by_cases hl : l.isEmpty
    · rw [if_pos hl]
      rw [List.isEmpty_iff.mp hl]
      simp [hL.update_nil]
    · rw [if_neg hl]
      have hpos : 0 < l.length := by
        cases l with
        | nil => simp at hl
        | cons x xs => simp
      have hdrop : (l.drop n).length ≤ f := by
        rw [List.length_drop]
        omega
      rw [List.foldl_cons, ih (l.drop n) (H.update s (l.take n)) hdrop]
      rw [← hL.update_append, List.take_append_drop]

theorem foldl_chunks {S : Type} (H : StreamingHasher S) (hL : H.Lawful)
    {n : Nat} (hn : 0 < n) (l : List Nat) (s : S) :
    (chunks n l).foldl H.update s = H.update s l :=
  foldl_chunksAux H hL n hn l.length l s (Nat.le_refl _)

theorem getElem?_zip {α β : Type} :
    ∀ (l1 : List α) (l2 : List β) (i : Nat),
      (l1.zip l2)[i]? = l1[i]?.bind (fun a => l2[i]?.map (fun b => (a, b))) := by
  intro l1
  induction l1 with
  | nil => intro l2 i; simp
  | cons x xs ih =>
    intro l2 i
    cases l2 with
    | nil => simp
    | cons y ys =>
      cases i with
      | zero => simp [List.zip_cons_cons]
      | succ k => simp [List.zip_cons_cons, ih ys k]

theorem firstError_ok_iff {E : Type} :
    ∀ l : List (Except E Unit), firstError l = .ok () ↔ failed_errors l = [] := by
  intro l
  induction l with
  | nil => simp [firstError, failed_errors]
  | cons r rest ih =>
    cases r with
    | ok u =>
      cases u
      simpa [firstError, failed_errors] using ih
    | error e => simp [firstError, failed_errors]

theorem spawn_tasks_ok {E : Type} :
    ∀ (entries : List (Except E Bool × Except E Unit)) (launched : List (Except E Unit)),
      spawn_tasks entries = .ok launched →
      launched = (entries.filter
          (fun x => match x.1 with | .ok true => true | _ => false)).map
        (fun x => x.2) := by
  intro entries
  induction entries with
  | nil =>
    intro launched h
    simp only [spawn_tasks] at h
    injection h with h
    simp [← h]
  | cons entry rest ih =>
    intro launched h
    obtain ⟨probe, fetch⟩ := entry
    simp only [spawn_tasks] at h
    cases probe with
    | error e => exact absurd h (by simp)
    | ok b =>
      cases b with
      | true =>
        dsimp only [] at h
        cases hrest : spawn_tasks rest with
        | error e => rw [hrest] at h; exact absurd h (by simp)
        | ok l =>
          rw [hrest] at h
          dsimp only [] at h
          injection h with h
          rw [← h, ih l hrest]
          simp
      | false =>
        dsimp only [] at h
        rw [ih launched h]
        simp

theorem chain_report_cons_ok {S P E : Type}
    {verify : S → S → List Nat → P → Except E S} {prev next acc : S}
    {d : List Nat} {p : P} {rest : List (S × List Nat × P)}
    (hv : verify prev next d p = .ok acc) :
    chain_report verify prev ((next, d, p) :: rest) =
      .verified :: chain_report verify acc rest := by
  unfold chain_report
  conv_lhs => rw [verify_ppot_chain]
  rw [hv]

theorem chain_report_cons_err {S P E : Type}
    {verify : S → S → List Nat → P → Except E S} {prev next : S}
    {d : List Nat} {p : P} {rest : List (S × List Nat × P)} {e : E}
    (hv : verify prev next d p = .error e) :
    chain_report verify prev ((next, d, p) :: rest) =
      .failed e :: chain_report verify next rest := by
  unfold chain_report
  conv_lhs => rw [verify_ppot_chain]
  rw [hv]

theorem chain_state_before_zero {S P E : Type}
    (verify : S → S → List Nat → P → Except E S) (prev : S)
    (rounds : List (S × List Nat × P)) :
    chain_state_before verify prev rounds 0 = prev := rfl

theorem chain_state_before_cons_ok {S P E : Type}
    {verify : S → S → List Nat → P → Except E S} {prev next acc : S}
    {d : List Nat} {p : P} {rest : List (S × List Nat × P)}
    (hv : verify prev next d p = .ok acc) (j : Nat) :
    chain_state_before verify prev ((next, d, p) :: rest) (j + 1) =
      chain_state_before verify acc rest j := by
  unfold chain_state_before
  rw [List.take_succ_cons]
  conv_lhs => rw [verify_ppot_chain]
  rw [hv]

theorem chain_state_before_cons_err {S P E : Type}
    {verify : S → S → List Nat → P → Except E S} {prev next : S}
    {d : List Nat} {p : P} {rest : List (S × List Nat × P)} {e : E}
    (hv : verify prev next d p = .error e) (j : Nat) :
    chain_state_before verify prev ((next, d, p) :: rest) (j + 1) =
      chain_state_before verify next rest j := by
  unfold chain_state_before
  rw [List.take_succ_cons]
  conv_lhs => rw [verify_ppot_chain]
  rw [hv]

theorem chain_report_length {S P E : Type}
    (verify : S → S → List Nat → P → Except E S) :
    ∀ (rounds : List (S × List Nat × P)) (prev : S),
      (chain_report verify prev rounds).length = rounds.length := by
  intro rounds
  induction rounds with
  | nil => intro prev; rfl
  | cons r rest ih =>
    intro prev
    obtain ⟨next, d, p⟩ := r
    cases hv : verify prev next d p with
    | ok acc => rw [chain_report_cons_ok hv]; simp [ih acc]
    | error e => rw [chain_report_cons_err hv]; simp [ih next]

theorem chain_at {S P E : Type} (verify : S → S → List Nat → P → Except E S) :
    ∀ (rounds : List (S × List Nat × P)) (prev : S) (j : Nat)
      (next : S) (d : List Nat) (p : P),
      rounds[j]? = some (next, d, p) →
      ((chain_report verify prev rounds)[j]? =
        some (match verify (chain_state_before verify prev rounds j) next d p with
              | .ok _ => RoundOutcome.verified
              | .error e => .failed e))
      ∧ (chain_state_before verify prev rounds (j + 1) =
          match verify (chain_state_before verify prev rounds j) next d p with
          | .ok a => a
          | .error _ => next) := by
  intro rounds
  induction rounds with
  | nil => intro prev j next d p h; simp at h
  | cons r rest ih =>
    intro prev j next d p h
    obtain ⟨rn, rd, rp⟩ := r
    cases j with
    | zero =>
      rw [List.getElem?_cons_zero] at h
      injection h with h
      simp only [Prod.mk.injEq] at h
      obtain ⟨h1, h2, h3⟩ := h
      rw [← h1, ← h2, ← h3, chain_state_before_zero]
      cases hv : verify prev rn rd rp with
      | ok acc =>
        rw [chain_report_cons_ok hv, chain_state_before_cons_ok hv 0,
          chain_state_before_zero]
        exact ⟨by simp, rfl⟩
      | error e =>
        rw [chain_report_cons_err hv, chain_state_before_cons_err hv 0,
          chain_state_before_zero]
        exact ⟨by simp, rfl⟩
    | succ k =>
      rw [List.getElem?_cons_succ] at h
      cases hv : verify prev rn rd rp with
      | ok acc =>
        rw [chain_report_cons_ok hv, chain_state_before_cons_ok hv k,
          chain_state_before_cons_ok hv (k + 1), List.getElem?_cons_succ]
        exact ih acc k next d p h
      | error e =>
        rw [chain_report_cons_err hv, chain_state_before_cons_err hv k,
          chain_state_before_cons_err hv (k + 1), List.getElem?_cons_succ]
        exact ih rn k next d p h

/-- Claim C1: whenever round j's verification fails, the chain records the
failure for round j with the reported error, recovers by setting the
current accumulator to round j+1's claimed state, and still reports an
individual outcome for every round (the report covers the whole round
list); successful rounds thread the verified accumulator instead. The scan
is never halted by a verification failure. -/
theorem C1_chain_continuation {S P E : Type}
    (verify : S → S → List Nat → P → Except E S) (prev : S)
    (rounds : List (S × List Nat × P)) :
    (chain_report verify prev rounds).length = rounds.length
    ∧ (∀ j next d p e, rounds[j]? = some (next, d, p) →
        verify (chain_state_before verify prev rounds j) next d p = .error e →
        (chain_report verify prev rounds)[j]? = some (.failed e)
          ∧ chain_state_before verify prev rounds (j + 1) = next)
    ∧ (∀ j next d p acc, rounds[j]? = some (next, d, p) →
        verify (chain_state_before verify prev rounds j) next d p = .ok acc →
        (chain_report verify prev rounds)[j]? = some .verified
          ∧ chain_state_before verify prev rounds (j + 1) = acc) := by
  refine ⟨chain_report_length verify rounds prev, ?_, ?_⟩
  · intro j next d p e hj hv
    obtain ⟨h1, h2⟩ := chain_at verify rounds prev j next d p hj
    rw [hv] at h1 h2
    exact ⟨h1, h2⟩
  · intro j next d p acc hj hv
    obtain ⟨h1, h2⟩ := chain_at verify rounds prev j next d p hj
    rw [hv] at h1 h2
    exact ⟨h1, h2⟩

/-- Witness for C1 at a concrete chain: round 0 of `exRounds` fails under
`exVerify`, is recorded as failed, and the accumulator becomes round 1's
claimed state. -/
theorem C1_chain_continuation_witness :
    (chain_report exVerify 5 exRounds)[0]? = some (.failed 7)
    ∧ chain_state_before exVerify 5 exRounds 1 = 10 :=
  (C1_chain_continuation exVerify 5 exRounds).2.1 0 10 [1] 0 7 rfl rfl

/-- Claim C3: the range-header parser returns `Full` exactly on inputs of
the form `bytes <start>-<end>/<size>` with u64 integer fields, `Size`
exactly on inputs of the form `bytes */<size>` with a u64 integer size, and
otherwise fails with the distinct error kind naming the malformed token; in
particular the three documented examples hold. -/
theorem C3_range_header_parsing :
    ContentRange.from_str "bytes 10-19/20".toList = .ok (.Full 10 19 20)
    ∧ ContentRange.from_str "bytes */20".toList = .ok (.Size 20)
    ∧ ContentRange.from_str "junk".toList = .error .MissingSpace
    ∧ ContentRange.from_str "bites 10-19/20".toList = .error .MissingBytesTag
    ∧ ContentRange.from_str "bytes 10-19".toList = .error .MissingSlash
    ∧ ContentRange.from_str "bytes x/20".toList = .error .MissingStar
    ∧ ContentRange.from_str "bytes x-19/20".toList = .error .InvalidStart
    ∧ ContentRange.from_str "bytes 10-x/20".toList = .error .InvalidEnd
    ∧ ContentRange.from_str "bytes 10-19/x".toList = .error .InvalidSize
    ∧ ContentRange.from_str "bytes */x".toList = .error .InvalidSize
    ∧ (∀ a b c st en sz, u64_from_str a = some st → u64_from_str b = some en →
        u64_from_str c = some sz →
        ContentRange.from_str ("bytes ".toList ++ a ++ '-' :: b ++ '/' :: c) =
          .ok (.Full st en sz))
    ∧ (∀ c sz, u64_from_str c = some sz →
        ContentRange.from_str ("bytes */".toList ++ c) = .ok (.Size sz))
    ∧ (∀ s st en sz, ContentRange.from_str s = .ok (.Full st en sz) →
        ∃ a b c, s = "bytes ".toList ++ a ++ '-' :: b ++ '/' :: c
          ∧ u64_from_str a = some st ∧ u64_from_str b = some en
          ∧ u64_from_str c = some sz)
    ∧ (∀ s sz, ContentRange.from_str s = .ok (.Size sz) →
        ∃ c, s = "bytes */".toList ++ c ∧ u64_from_str c = some sz) := by
  refine ⟨rfl, rfl, rfl, rfl, rfl, rfl, rfl, rfl, rfl, rfl, ?_, ?_, ?_, ?_⟩
  · intro a b c st en sz ha hb hc
    exact from_str_full_sound ha hb hc
  · intro c sz hc
    exact from_str_size_sound hc
  · intro s st en sz h
    exact from_str_ok_full h
  · intro s sz h
    exact from_str_ok_size h

/-- Witness for C3: the grammar soundness direction applied at the concrete
field strings 7, 8 and 9. -/
theorem C3_range_header_parsing_witness :
    ContentRange.from_str ("bytes ".toList ++ "7".toList ++ '-' :: "8".toList
        ++ '/' :: "9".toList) = .ok (.Full 7 8 9) :=
  C3_range_header_parsing.2.2.2.2.2.2.2.2.2.2.1 "7".toList "8".toList "9".toList
    7 8 9 rfl rfl rfl

/-- Claim C4: for every resume offset L, the download-request step succeeds
with nothing to download exactly when the parsed range is `Size L`; fails
with the size-mismatch error exactly when it is `Size sz` with `sz ≠ L`;
fails with the missing-or-invalid-range error exactly when the header is
absent or unparseable; and proceeds with total size `sz` exactly when the
range is `Full`. -/
theorem C4_send_download_request_dispatch (header : Option (List Char)) (L : Nat) :
    (send_download_request header L = .ok none ↔
      ContentRange.from_response header = some (.Size L))
    ∧ (send_download_request header L = .error .sizeMismatch ↔
        ∃ sz, ContentRange.from_response header = some (.Size sz) ∧ sz ≠ L)
    ∧ (send_download_request header L = .error .missingOrInvalidRange ↔
        ContentRange.from_response header = none)
    ∧ (∀ sz, send_download_request header L = .ok (some sz) ↔
        ∃ st en, ContentRange.from_response header = some (.Full st en sz)) := by
  cases hcr : ContentRange.from_response header with
  | none =>
    refine ⟨?_, ?_, ?_, ?_⟩ <;> simp [send_download_request, hcr]
  | some cr =>
    cases cr with
    | Full st en sz =>
      refine ⟨?_, ?_, ?_, ?_⟩ <;> simp [send_download_request, hcr]
    | Size sz =>
      by_cases hsz : sz = L
      · subst hsz
        refine ⟨?_, ?_, ?_, ?_⟩ <;> simp [send_download_request, hcr]
      · refine ⟨?_, ?_, ?_, ?_⟩ <;> simp [send_download_request, hcr, hsz]

/-- Witness for C4 at a concrete header: a `bytes */20` response to a
request resuming at offset 20 means nothing is left to download. -/
theorem C4_send_download_request_dispatch_witness :
    send_download_request (some "bytes */20".toList) 20 = .ok none :=
  (C4_send_download_request_dispatch (some "bytes */20".toList) 20).1.mpr rfl

/-- Claim C5: when the artifact's current length already equals the
resource's total size (the server answers `Size` equal to that length), the
fetch performs zero body writes, leaves the artifact unchanged, and
returns success. -/
theorem C5_resume_idempotent (server : Server) (file : List Nat)
    (h : ContentRange.from_response (server.header file.length) =
      some (.Size file.length)) :
    download_file server file = .ok ⟨file.length, [], file⟩ := by
  have hs : send_download_request (server.header file.length) file.length = .ok none := by
    unfold send_download_request
    rw [h]
    simp
  unfold download_file open_file
  dsimp only []
  rw [hs]

/-- Witness for C5: a server reporting `bytes */0` to a fetch into an empty
artifact writes nothing and succeeds. -/
theorem C5_resume_idempotent_witness :
    download_file ⟨fun _ => some "bytes */0".toList, fun _ => []⟩ [] =
      .ok ⟨0, [], []⟩ :=
  C5_resume_idempotent ⟨fun _ => some "bytes */0".toList, fun _ => []⟩ [] rfl

/-- Claim C6: for a partially-written artifact of length L the fetch
consults the server at start offset exactly L; when the server answers
`Full` and its body chunks carry exactly the remaining size − L bytes, the
fetch appends every chunk in arrival order and the final artifact length
equals size. -/
theorem C6_resume_correct (server : Server) (file : List Nat) (st en size : Nat)
    (hL : file.length < size)
    (hh : ContentRange.from_response (server.header file.length) =
      some (.Full st en size))
    (hb : file.length + ((server.body file.length).flatten).length = size) :
    download_file server file =
      .ok ⟨file.length, server.body file.length,
        file ++ (server.body file.length).flatten⟩
    ∧ (file ++ (server.body file.length).flatten).length = size := by
  have hs : send_download_request (server.header file.length) file.length =
      .ok (some size) := by
    unfold send_download_request
    rw [hh]
  constructor
  · unfold download_file open_file
    dsimp only []
    rw [hs]
    dsimp only []
    rw [foldl_append_eq]
  · rw [List.length_append]
    exact hb

/-- Witness for C6: resuming an empty artifact against a server that
reports `bytes 0-4/5` and sends the five remaining bytes in two chunks. -/
theorem C6_resume_correct_witness :
    download_file ⟨fun _ => some "bytes 0-4/5".toList, fun _ => [[1, 2, 3], [4, 5]]⟩ [] =
      .ok ⟨0, [[1, 2, 3], [4, 5]], [1, 2, 3, 4, 5]⟩
    ∧ (([] : List Nat) ++ ([[1, 2, 3], [4, 5]] : List (List Nat)).flatten).length = 5 := by
  have h := C6_resume_correct
    ⟨fun _ => some "bytes 0-4/5".toList, fun _ => [[1, 2, 3], [4, 5]]⟩ [] 0 4 5
    (by decide) rfl (by decide)
  exact ⟨h.1, h.2⟩

theorem exHasher_lawful : exHasher.Lawful where
  update_append := fun s a b => (List.append_assoc s a b).symm
  update_nil := fun s => List.append_nil s
  finalize_length := fun s => by simp [exHasher]

/-- Claim C7: for every byte sequence the streaming hash produces the
64-byte digest of the whole sequence (the finalization of one incremental
update with all the bytes), and the result is independent of the internal
chunk size: any two positive chunk sizes yield identical digests. -/
theorem C7_hash_chunk_independent {S : Type} (H : StreamingHasher S)
    (hL : H.Lawful) (input : List Nat) (c1 c2 : Nat)
    (h1 : 0 < c1) (h2 : 0 < c2) :
    calculate_hash H c1 input = some (H.finalize (H.update H.dflt input))
    ∧ calculate_hash H c1 input = calculate_hash H c2 input := by
  have key : ∀ c : Nat, 0 < c →
      calculate_hash H c input = some (H.finalize (H.update H.dflt input)) := by
    intro c hc
    unfold calculate_hash into_array_unchecked
    rw [foldl_chunks H hL hc]
    rw [if_pos (hL.finalize_length _)]
  exact ⟨key c1 h1, (key c1 h1).trans (key c2 h2).symm⟩

/-- Witness for C7: hashing the same three bytes with chunk sizes 1 and 2
yields the same digest, the digest of the whole input. -/
theorem C7_hash_chunk_independent_witness :
    calculate_hash exHasher 1 [1, 2, 3] =
      some (exHasher.finalize (exHasher.update exHasher.dflt [1, 2, 3]))
    ∧ calculate_hash exHasher 1 [1, 2, 3] = calculate_hash exHasher 2 [1, 2, 3] :=
  C7_hash_chunk_independent exHasher exHasher_lawful [1, 2, 3] 1 2
    (by decide) (by decide)

/-- Claim C9: the consistency-check pass produces one comparison outcome for
every zipped pair of a challenge hash file and the following response file,
each outcome comparing that round's 64-byte recorded hash with the 64 bytes
embedded at the start of the response; a mismatch at one round never
removes later rounds from the report. -/
theorem C9_hash_check_per_round (challenge_hash_files response_files : List (List Nat)) :
    (hash_check_report challenge_hash_files response_files).length =
      min challenge_hash_files.length response_files.length
    ∧ ∀ i : Nat, (hash_check_report challenge_hash_files response_files)[i]? =
        challenge_hash_files[i]?.bind
          (fun c => response_files[i]?.map (fun r => decide (read64 c = read64 r))) := by
  constructor
  · simp [hash_check_report]
  · intro i
    unfold hash_check_report
    rw [List.getElem?_map, getElem?_zip]
    cases challenge_hash_files[i]? with
    | none => rfl
    | some c =>
      cases response_files[i]? with
      | none => rfl
      | some r => rfl

/-- Claim C10: `into_array_unchecked` hits its `unreachable!` branch exactly
when the input length differs from the target length N; under the length-N
precondition it returns the input elements, and in particular it always
succeeds on a finalized 64-byte digest and on the 64-byte slice of a
response artifact of length at least 64. -/
theorem C10_into_array_unchecked :
    (∀ (N : Nat) (v : List Nat), into_array_unchecked N v = none ↔ v.length ≠ N)
    ∧ (∀ (N : Nat) (v : List Nat), v.length = N → into_array_unchecked N v = some v)
    ∧ (∀ (S : Type) (H : StreamingHasher S), H.Lawful →
        ∀ s, into_array_unchecked 64 (H.finalize s) = some (H.finalize s))
    ∧ (∀ response : List Nat, 64 ≤ response.length →
        into_array_unchecked 64 (response.take 64) = some (response.take 64)) := by
  refine ⟨?_, ?_, ?_, ?_⟩
  · intro N v
    unfold into_array_unchecked
    by_cases h : v.length = N
    · simp [h]
    · simp [h]
  · intro N v h
    unfold into_array_unchecked
    rw [if_pos h]
  · intro S H hL s
    unfold into_array_unchecked
    rw [if_pos (hL.finalize_length s)]
  · intro response h
    unfold into_array_unchecked
    rw [if_pos]
    rw [List.length_take]
    omega

/-- Witness for C10: the 64-byte slice of a 100-byte artifact converts
without hitting the panic branch. -/
theorem C10_into_array_unchecked_witness :
    into_array_unchecked 64 ((List.range 100).take 64) =
      some ((List.range 100).take 64) :=
  C10_into_array_unchecked.2.2.2 (List.range 100) (by simp)

/-- Counterexample for C2: two catalogs whose launched tasks have different
lists of failed entries produce the same overall orchestrator result
(`error 0`), so the overall result does not aggregate the list of failed
entries as the claim states; it carries only the first failure. -/
theorem C2_counterexample :
    downloader_main [((Except.ok true : Except Nat Bool), (Except.error 0 : Except Nat Unit)),
        (Except.ok true, Except.ok ())] =
      downloader_main [((Except.ok true : Except Nat Bool), (Except.error 0 : Except Nat Unit)),
        (Except.ok true, Except.error 1)]
    ∧ spawn_tasks [((Except.ok true : Except Nat Bool), (Except.error 0 : Except Nat Unit)),
        (Except.ok true, Except.ok ())] = .ok [.error 0, .ok ()]
    ∧ spawn_tasks [((Except.ok true : Except Nat Bool), (Except.error 0 : Except Nat Unit)),
        (Except.ok true, Except.error 1)] = .ok [.error 0, .error 1]
    ∧ failed_errors [(Except.error 0 : Except Nat Unit), .ok ()] = [0]
    ∧ failed_errors [(Except.error 0 : Except Nat Unit), .error 1] = [0, 1]
    ∧ ([0] : List Nat) ≠ [0, 1] :=
  ⟨rfl, rfl, rfl, rfl, rfl, by decide⟩

/-- Claim C2 as amended: when every probe responds, exactly the entries
whose probe returned true are launched and all their task results are
collected (one failure never prevents the other tasks from running to
completion); the overall result is success iff every launched task
succeeded, and on failure it is the first failed task's error rather than
the list of all failed entries. -/
theorem C2_orchestrator_aggregation {E : Type}
    (entries : List (Except E Bool × Except E Unit))
    (launched : List (Except E Unit)) (h : spawn_tasks entries = .ok launched) :
    launched = (entries.filter
        (fun x => match x.1 with | .ok true => true | _ => false)).map (fun x => x.2)
    ∧ downloader_main entries = firstError launched
    ∧ (downloader_main entries = .ok () ↔ failed_errors launched = []) := by
  have hm : downloader_main entries = firstError launched := by
    unfold downloader_main
    rw [h]
  refine ⟨spawn_tasks_ok entries launched h, hm, ?_⟩
  rw [hm]
  exact firstError_ok_iff launched

/-- Witness for C2: a concrete batch where the second entry's probe fails
(and is skipped) and the first task fails while the third still runs; the
overall result reports the first failure. -/
theorem C2_orchestrator_aggregation_witness :
    ([Except.error 3, Except.ok ()] : List (Except Nat Unit)) =
      (([((Except.ok true : Except Nat Bool), (Except.error 3 : Except Nat Unit)),
          (Except.ok false, Except.ok ()), (Except.ok true, Except.ok ())]).filter
        (fun x => match x.1 with | .ok true => true | _ => false)).map (fun x => x.2)
    ∧ downloader_main [((Except.ok true : Except Nat Bool), (Except.error 3 : Except Nat Unit)),
        (Except.ok false, Except.ok ()), (Except.ok true, Except.ok ())] =
      firstError [Except.error 3, Except.ok ()]
    ∧ (downloader_main [((Except.ok true : Except Nat Bool), (Except.error 3 : Except Nat Unit)),
        (Except.ok false, Except.ok ()), (Except.ok true, Except.ok ())] = .ok () ↔
      failed_errors ([Except.error 3, Except.ok ()] : List (Except Nat Unit)) = []) :=
  C2_orchestrator_aggregation
    [((Except.ok true : Except Nat Bool), (Except.error 3 : Except Nat Unit)),
      (Except.ok false, Except.ok ()), (Except.ok true, Except.ok ())]
    [Except.error 3, Except.ok ()] rfl

/-- Counterexample for C8: the parser accepts `bytes 5-3/2` as
`Full{5,3,2}` even though neither `start <= end` nor `end < size` holds, so
parser outputs do not satisfy the claimed invariant. -/
theorem C8_counterexample :
    ContentRange.from_str "bytes 5-3/2".toList = .ok (.Full 5 3 2)
    ∧ ¬ (5 ≤ 3 ∧ 3 < 2) :=
  ⟨rfl, by decide⟩

/-- Claim C8 as amended: the parser enforces no ordering between the parsed
fields; the only guaranteed invariant of a successful `Full` result is that
each field is a valid u64, i.e. below `2 ^ 64`. -/
theorem C8_parsed_fields_are_u64 {s : List Char} {st en sz : Nat}
    (h : ContentRange.from_str s = .ok (.Full st en sz)) :
    st < 2 ^ 64 ∧ en < 2 ^ 64 ∧ sz < 2 ^ 64 := by
  obtain ⟨a, b, c, _, ha, hb, hc⟩ := from_str_ok_full h
  exact ⟨u64_from_str_lt ha, u64_from_str_lt hb, u64_from_str_lt hc⟩

/-- Witness for C8's amended claim at a concrete parse. -/
theorem C8_parsed_fields_are_u64_witness :
    (10 : Nat) < 2 ^ 64 ∧ (19 : Nat) < 2 ^ 64 ∧ (20 : Nat) < 2 ^ 64 :=
  C8_parsed_fields_are_u64 (s := "bytes 10-19/20".toList) rfl
